import Mathlib

/-!
# Verification of the chatGDP data pipeline

A shallow embedding of `data.py`: the panel cleaning routine
`clean_quarterly_data`, the dataset preparation routine `prepare_data`,
and the FRED collection loop `collect_data`, together with theorems
settling the claims of the specification about them.

Modelling conventions:
* a pandas DataFrame is a `Panel`: a date index (dates as integers) plus a
  list of named columns, each cell `Option ℚ` (`none` is NaN);
* each column carries the `numeric` flag of its dtype, which no cleaning
  step changes;
* `col.isna().mean() > t` is `NaN > t = False` on an empty frame, so the
  drop test carries the explicit `0 < length` guard;
* the external `StandardScaler` is modelled over `ℝ` (its scale is a
  square root); everything else is computable.
-/

namespace ChatGDP

/-- A pandas column: its name, whether its dtype is numeric, and its cells
(`none` models a missing value, i.e. NaN). -/
structure Column where
  name : String
  numeric : Bool
  cells : List (Option ℚ)
  deriving DecidableEq

/-- A pandas DataFrame: a date index plus columns.  Dates are integers
(e.g. a quarter count). -/
structure Panel where
  index : List ℤ
  cols : List Column
  deriving DecidableEq

/-- `clean_df[col].isna().mean() > col_thresh`: the drop test of the
column-pruning step.  On a zero-row frame pandas compares `NaN > t`,
which is `False`, hence the `0 < length` guard. -/
def dropColumn (t : ℚ) (c : Column) : Bool :=
  decide (0 < c.cells.length ∧
    ((c.cells.countP (fun x => x.isNone) : ℚ) / (c.cells.length : ℚ)) > t)

/-- Forward fill with an explicit last-seen accumulator. -/
def ffillAux : Option ℚ → List (Option ℚ) → List (Option ℚ)
  | _, [] => []
  | last, none :: xs => last :: ffillAux last xs
  | _, some v :: xs => some v :: ffillAux (some v) xs

/-- `Series.ffill`: propagate the last valid observation forward. -/
def ffillCells (l : List (Option ℚ)) : List (Option ℚ) :=
  ffillAux none l

/-- `Series.bfill`: propagate the next valid observation backward. -/
def bfillCells (l : List (Option ℚ)) : List (Option ℚ) :=
  (ffillAux none l.reverse).reverse

/-- `clean_df.ffill().bfill()` applied to one column. -/
def fillColumn (c : Column) : Column :=
  { c with cells := bfillCells (ffillCells c.cells) }

/-- Row `i` has no missing value in any column (the keep test of
`dropna(how=any)`). -/
def rowOk (cols : List Column) (i : ℕ) : Bool :=
  cols.all fun c => (c.cells.getD i none).isSome

/-- Keep the elements of `l` whose positional mask entry is `true`. -/
def maskFilter : List α → List Bool → List α
  | [], _ => []
  | _, [] => []
  | a :: l, b :: m => if b then a :: maskFilter l m else maskFilter l m

/-- `clean_df.dropna(how=any, inplace=True)`: drop every row that still
contains a missing value, in index and in every column. -/
def dropnaAny (p : Panel) : Panel :=
  let mask := (List.range p.index.length).map (rowOk p.cols)
  { index := maskFilter p.index mask
    cols := p.cols.map fun c => { c with cells := maskFilter c.cells mask } }

/-- `clean_df[clean_df.select_dtypes(include=[number]).columns]`: keep the
numeric columns only. -/
def selectNumeric (p : Panel) : Panel :=
  { p with cols := p.cols.filter fun c => c.numeric }

/-- `clean_quarterly_data(df, col_thresh)`: drop columns whose missing
fraction strictly exceeds the threshold, forward fill then backward fill,
drop rows that still contain a missing value, keep numeric columns. -/
def clean_quarterly_data (df : Panel) (col_thresh : ℚ) : Panel :=
  selectNumeric (dropnaAny
    { index := df.index
      cols := (df.cols.filter fun c => !dropColumn col_thresh c).map fillColumn })

/-- The same call with the dataframe of the caller threaded through as
explicit state: the source copies `df` into `clean_df` and mutates the copy only,
so the second component (the `df` of the caller after the call) is
returned untouched. -/
def clean_quarterly_data_run (df : Panel) (col_thresh : ℚ) : Panel × Panel :=
  let clean_df := df
  let clean_df : Panel :=
    { index := clean_df.index
      cols := clean_df.cols.filter fun c => !dropColumn col_thresh c }
  let clean_df : Panel := { clean_df with cols := clean_df.cols.map fillColumn }
  let clean_df := dropnaAny clean_df
  let clean_df := selectNumeric clean_df
  (clean_df, df)

/-! ## Basic lemmas about the cleaning steps -/

theorem maskFilter_sublist (l : List α) : ∀ m : List Bool, (maskFilter l m).Sublist l := by
  induction l with
  | nil => intro m; cases m <;> simp [maskFilter]
  | cons a l ih =>
    intro m
    cases m with
    | nil => simp [maskFilter]
    | cons b m =>
      cases b with
      | false => simpa [maskFilter] using (ih m).cons a
      | true => simpa [maskFilter] using (ih m).cons₂ a

theorem isSome_of_mem_maskFilter {l : List (Option ℚ)} {m : List Bool}
    (h : ∀ i, i < m.length → m.getD i false = true → (l.getD i none).isSome = true) :
    ∀ x ∈ maskFilter l m, x.isSome = true := by
  induction l generalizing m with
  | nil => intro x hx; simp [maskFilter] at hx
  | cons a l ih =>
    intro x hx
    cases m with
    | nil => simp [maskFilter] at hx
    | cons b m =>
      have hrec := ih (m := m) (fun i hi hm => h (i + 1) (by simpa using hi) (by simpa using hm))
      cases b with
      | false => exact hrec x (by simpa [maskFilter] using hx)
      | true =>
        rcases (by simpa [maskFilter] using hx : x = a ∨ x ∈ maskFilter l m) with rfl | hx
        · exact h 0 (by simp) (by simp)
        · exact hrec x hx

theorem mask_entry_rowOk {cols : List Column} {n i : ℕ}
    (hi : i < ((List.range n).map (rowOk cols)).length)
    (hm : ((List.range n).map (rowOk cols)).getD i false = true) :
    rowOk cols i = true := by
  have hin : i < n := by simpa using hi
  have : ((List.range n).map (rowOk cols)).getD i false = rowOk cols i := by
    rw [List.getD_eq_getElem?_getD]
    simp [List.getElem?_map, List.getElem?_range hin]
  rwa [this] at hm

theorem clean_no_missing (df : Panel) (t : ℚ) :
    ∀ c ∈ (clean_quarterly_data df t).cols, ∀ x ∈ c.cells, x.isSome = true := by
  intro c hc x hx
  have hc₂ : c ∈ (dropnaAny
      { index := df.index
        cols := (df.cols.filter fun c => !dropColumn t c).map fillColumn } : Panel).cols :=
    List.mem_of_mem_filter hc
  simp only [dropnaAny, List.mem_map] at hc₂
  obtain ⟨c₀, hc₀, rfl⟩ := hc₂
  refine isSome_of_mem_maskFilter (fun i hi hm => ?_) x hx
  have hro := mask_entry_rowOk hi hm
  simpa using List.all_eq_true.mp hro c₀ (List.mem_map.mpr hc₀)

theorem clean_all_numeric (df : Panel) (t : ℚ) :
    ∀ c ∈ (clean_quarterly_data df t).cols, c.numeric = true := by
  intro c hc
  exact List.of_mem_filter hc

theorem clean_index_sublist (df : Panel) (t : ℚ) :
    (clean_quarterly_data df t).index.Sublist df.index := by
  show maskFilter df.index _ |>.Sublist df.index
  exact maskFilter_sublist _ _

/-- Claim C1 — For every input panel and threshold, the cleaned panel has no
missing values, all of its columns are numeric, and its row index is a
sublist (a subset in the original chronological order) of the row
index of the input. -/
theorem claim_C1 (df : Panel) (t : ℚ) :
    (∀ c ∈ (clean_quarterly_data df t).cols, ∀ x ∈ c.cells, x.isSome = true) ∧
    (∀ c ∈ (clean_quarterly_data df t).cols, c.numeric = true) ∧
    (clean_quarterly_data df t).index.Sublist df.index :=
  ⟨clean_no_missing df t, clean_all_numeric df t, clean_index_sublist df t⟩

/-! ## Lengths, fills on complete columns, and idempotence -/

theorem maskFilter_nil (m : List Bool) : maskFilter ([] : List α) m = [] := by
  cases m <;> rfl

theorem ffillAux_length (acc : Option ℚ) (l : List (Option ℚ)) :
    (ffillAux acc l).length = l.length := by
  induction l generalizing acc with
  | nil => rfl
  | cons a l ih =>
    cases a with
    | none => simp [ffillAux, ih]
    | some v => simp [ffillAux, ih]

theorem fillColumn_cells_length (c : Column) :
    (fillColumn c).cells.length = c.cells.length := by
  simp [fillColumn, bfillCells, ffillCells, ffillAux_length]

theorem ffillAux_of_all_some (l : List (Option ℚ)) (h : ∀ x ∈ l, x.isSome = true) :
    ∀ acc, ffillAux acc l = l := by
  induction l with
  | nil => intro acc; rfl
  | cons a l ih =>
    intro acc
    cases a with
    | none => simpa using h none (by simp)
    | some v =>
      simp only [ffillAux, List.cons.injEq, true_and]
      exact ih (fun x hx => h x (by simp [hx])) (some v)

theorem fillColumn_of_all_some (c : Column) (h : ∀ x ∈ c.cells, x.isSome = true) :
    fillColumn c = c := by
  have h1 : ffillAux none c.cells = c.cells := ffillAux_of_all_some _ h none
  have h2 : bfillCells c.cells = c.cells := by
    unfold bfillCells
    rw [ffillAux_of_all_some _ (fun x hx => h x (List.mem_reverse.mp hx)) none,
      List.reverse_reverse]
  simp [fillColumn, ffillCells, h1, h2]

theorem maskFilter_replicate_true (l : List α) :
    ∀ n, maskFilter l (List.replicate n true) = l.take n := by
  induction l with
  | nil => intro n; cases n <;> simp [maskFilter]
  | cons a l ih =>
    intro n
    cases n with
    | zero => simp [maskFilter]
    | succ n => simp [List.replicate_succ, maskFilter, ih]

theorem maskFilter_all_false {m : List Bool} (h : ∀ b ∈ m, b = false) (l : List α) :
    maskFilter l m = [] := by
  induction m generalizing l with
  | nil => cases l <;> rfl
  | cons b m ih =>
    have hb : b = false := h b (by simp)
    cases l with
    | nil => rfl
    | cons a l =>
      subst hb
      simpa [maskFilter] using ih (fun x hx => h x (by simp [hx])) l

theorem getD_isSome_lt {l : List (Option ℚ)} {i : ℕ}
    (h : (l.getD i none).isSome = true) : i < l.length := by
  by_contra hlt
  rw [List.getD_eq_default _ _ (Nat.le_of_not_lt hlt)] at h
  simp at h

theorem maskFilter_length_eq {α β : Type} :
    ∀ (m : List Bool) (l : List α) (idx : List β),
      m.length = idx.length →
      (∀ i, i < m.length → m.getD i false = true → i < l.length) →
      (maskFilter l m).length = (maskFilter idx m).length := by
  intro m
  induction m with
  | nil =>
    intro l idx _ _
    cases l <;> cases idx <;> rfl
  | cons b m ih =>
    intro l idx hlen htrue
    cases idx with
    | nil => simp at hlen
    | cons d idx =>
      cases b with
      | true =>
        have h0 : 0 < l.length := htrue 0 (by simp) (by simp)
        cases l with
        | nil => simp at h0
        | cons a l =>
          have hrec := ih l idx (by simpa using hlen) (fun i hi hm => by
            have h' := htrue (i + 1) (by simpa using Nat.succ_lt_succ hi) (by simpa using hm)
            exact Nat.lt_of_succ_lt_succ h')
          simpa [maskFilter] using hrec
      | false =>
        cases l with
        | nil =>
          have hall : ∀ x ∈ m, x = false := by
            intro x hx
            obtain ⟨i, hi, hget⟩ := List.mem_iff_getElem.mp hx
            rcases Bool.eq_false_or_eq_true x with hxv | hxv
            · exfalso
              have hm : (false :: m).getD (i + 1) false = true := by
                simp only [List.getD_cons_succ]
                rw [List.getD_eq_getElem _ _ hi, hget, hxv]
              have h' := htrue (i + 1) (by simpa using Nat.succ_lt_succ hi) hm
              simp at h'
            · exact hxv
          simp [maskFilter, maskFilter_all_false hall]
        | cons a l =>
          have hrec := ih l idx (by simpa using hlen) (fun i hi hm => by
            have h' := htrue (i + 1) (by simpa using Nat.succ_lt_succ hi) (by simpa using hm)
            exact Nat.lt_of_succ_lt_succ h')
          simpa [maskFilter] using hrec

theorem dropnaAny_wf (p : Panel) :
    ∀ c ∈ (dropnaAny p).cols, c.cells.length = (dropnaAny p).index.length := by
  intro c hc
  simp only [dropnaAny, List.mem_map] at hc
  obtain ⟨c₀, hc₀, rfl⟩ := hc
  show (maskFilter c₀.cells _).length = (maskFilter p.index _).length
  apply maskFilter_length_eq
  · simp
  · intro i hi hm
    have hro := mask_entry_rowOk hi hm
    exact getD_isSome_lt (by simpa using List.all_eq_true.mp hro c₀ hc₀)

theorem clean_wf (df : Panel) (t : ℚ) :
    ∀ c ∈ (clean_quarterly_data df t).cols,
      c.cells.length = (clean_quarterly_data df t).index.length := by
  intro c hc
  exact dropnaAny_wf _ c (List.mem_of_mem_filter hc)

theorem clean_cells_nil_of_neg (df : Panel) {t : ℚ} (ht : t < 0) :
    ∀ c ∈ (clean_quarterly_data df t).cols, c.cells = [] := by
  intro c hc
  have hc₂ := List.mem_of_mem_filter hc
  simp only [dropnaAny, List.mem_map] at hc₂
  obtain ⟨c₀, hc₀, rfl⟩ := hc₂
  obtain ⟨c₁, hc₁, rfl⟩ := hc₀
  have hdrop : dropColumn t c₁ = false := by
    simpa using List.of_mem_filter hc₁
  have hnil : c₁.cells = [] := by
    by_contra hne
    have hpos : 0 < c₁.cells.length := List.length_pos.mpr hne
    have hfrac : (0:ℚ) ≤
        (c₁.cells.countP (fun x => x.isNone) : ℚ) / (c₁.cells.length : ℚ) := by
      positivity
    have hd : dropColumn t c₁ = true := by
      simp only [dropColumn, decide_eq_true_eq]
      exact ⟨hpos, lt_of_lt_of_le ht hfrac⟩
    simp [hd] at hdrop
  show maskFilter (fillColumn c₁).cells _ = []
  have hfc : (fillColumn c₁).cells = [] := by
    simp [fillColumn, hnil, ffillCells, bfillCells, ffillAux]
  rw [hfc, maskFilter_nil]

theorem clean_dropColumn_false (df : Panel) (t : ℚ) :
    ∀ c ∈ (clean_quarterly_data df t).cols, dropColumn t c = false := by
  intro c hc
  rcases lt_or_le t 0 with ht | ht
  · have hnil := clean_cells_nil_of_neg df ht c hc
    simp [dropColumn, hnil]
  · have hcount : c.cells.countP (fun x => x.isNone) = 0 :=
      List.countP_eq_zero.mpr (fun x hx hno => by
        have hs := clean_no_missing df t c hc x hx
        cases x with
        | none => simp at hs
        | some v => simp at hno)
    simp only [dropColumn, hcount, Nat.cast_zero, zero_div, decide_eq_false_iff_not]
    rintro ⟨-, hgt⟩
    exact absurd hgt (not_lt.mpr ht)

theorem dropnaAny_of_complete (p : Panel)
    (hB : ∀ c ∈ p.cols, ∀ x ∈ c.cells, x.isSome = true)
    (hC : ∀ c ∈ p.cols, c.cells.length = p.index.length) :
    dropnaAny p = p := by
  have hmask : (List.range p.index.length).map (rowOk p.cols) =
      List.replicate p.index.length true := by
    have hmem : ∀ b ∈ (List.range p.index.length).map (rowOk p.cols), b = true := by
      intro b hb
      obtain ⟨i, hi, rfl⟩ := List.mem_map.mp hb
      have hi' : i < p.index.length := List.mem_range.mp hi
      refine List.all_eq_true.mpr (fun c hc => ?_)
      have hlen : i < c.cells.length := by rw [hC c hc]; exact hi'
      rw [List.getD_eq_getElem _ _ hlen]
      exact hB c hc _ (List.getElem_mem hlen)
    simpa using List.eq_replicate_of_mem hmem
  have hcols : ∀ c ∈ p.cols,
      ({ c with cells := maskFilter c.cells (List.replicate p.index.length true) } :
        Column) = c := by
    intro c hc
    rw [maskFilter_replicate_true, List.take_of_length_le (le_of_eq (hC c hc))]
  show (⟨maskFilter p.index _, p.cols.map _⟩ : Panel) = p
  rw [hmask]
  have hidx : maskFilter p.index (List.replicate p.index.length true) = p.index := by
    rw [maskFilter_replicate_true, List.take_length]
  rw [hidx, List.map_congr_left hcols, List.map_id']

theorem selectNumeric_of_numeric (p : Panel) (hA : ∀ c ∈ p.cols, c.numeric = true) :
    selectNumeric p = p := by
  show (⟨p.index, p.cols.filter _⟩ : Panel) = p
  rw [List.filter_eq_self.mpr hA]

theorem clean_fixed (p : Panel) (t : ℚ)
    (hA : ∀ c ∈ p.cols, c.numeric = true)
    (hB : ∀ c ∈ p.cols, ∀ x ∈ c.cells, x.isSome = true)
    (hD : ∀ c ∈ p.cols, dropColumn t c = false)
    (hC : ∀ c ∈ p.cols, c.cells.length = p.index.length) :
    clean_quarterly_data p t = p := by
  unfold clean_quarterly_data
  have h1 : (p.cols.filter fun c => !dropColumn t c) = p.cols :=
    List.filter_eq_self.mpr (fun c hc => by simp [hD c hc])
  have h2 : p.cols.map fillColumn = p.cols := by
    rw [List.map_congr_left (fun c hc => fillColumn_of_all_some c (hB c hc)), List.map_id']
  rw [h1, h2]
  have hp : ({ index := p.index, cols := p.cols } : Panel) = p := rfl
  rw [hp, dropnaAny_of_complete p hB hC, selectNumeric_of_numeric p hA]

/-- Claim C7 — Cleaning is idempotent: for every panel and every threshold,
applying `clean_quarterly_data` to its own output (with the same
threshold) returns that output unchanged. -/
theorem claim_C7 (df : Panel) (t : ℚ) :
    clean_quarterly_data (clean_quarterly_data df t) t = clean_quarterly_data df t :=
  clean_fixed _ t (clean_all_numeric df t) (clean_no_missing df t)
    (clean_dropColumn_false df t) (clean_wf df t)

/-! ## Which columns survive cleaning (claim C3) -/

/-- A two-row panel whose single column is non-numeric (a label column)
and has no missing entry at all. -/
def labelCol : Column := ⟨"Quarter_Label", false, [some 1, some 2]⟩

/-- The panel holding only `labelCol`. -/
def dfLabelOnly : Panel := ⟨[0, 1], [labelCol]⟩

/-- Claim C3, counterexample — A fully populated column (missing fraction 0,
not exceeding the threshold 3/10) is nevertheless dropped by
`clean_quarterly_data` because it is non-numeric: the claim that `clean`
drops exactly the columns whose missing fraction strictly exceeds the
threshold is false. -/
theorem counterexample_C3 :
    dropColumn (3/10) labelCol = false ∧
    (clean_quarterly_data dfLabelOnly (3/10)).cols = [] := by
  constructor
  · with_unfolding_all decide
  · with_unfolding_all decide

/-- Claim C3, amended — The columns surviving `clean_quarterly_data` are
exactly the numeric columns of the input whose missing fraction (computed
on the input, with pandas NaN-comparison semantics on a zero-row frame)
does not strictly exceed the threshold; each keeps its name, in the
original order.  Non-numeric columns are always dropped by the type
pruning step, whatever their missing fraction. -/
theorem claim_C3_amended (df : Panel) (t : ℚ) :
    (clean_quarterly_data df t).cols.map (fun c => (c.name, c.numeric)) =
      (df.cols.filter fun c => c.numeric && !dropColumn t c).map
        fun c => (c.name, c.numeric) := by
  unfold clean_quarterly_data selectNumeric dropnaAny
  simp only [List.map_map, List.filter_map, List.filter_filter]
  rfl

/-- Claim C9 — `clean_quarterly_data` is deterministic and pure: the
state-threaded run returns exactly the value of the pure function together
with the input panel of the caller unchanged (the source works on a copy, and
the translation of its body is a total function of the panel and the
threshold alone, with no external call). -/
theorem claim_C9 (df : Panel) (t : ℚ) :
    clean_quarterly_data_run df t = (clean_quarterly_data df t, df) := rfl

/-! ## Dataset preparation (prepare_data) -/

/-- `cleaned_df.values`: the row-major numeric matrix of a panel (after
cleaning every cell is present, so the `getD 0` defaults never fire). -/
def panelRows (p : Panel) : List (List ℚ) :=
  (List.range p.index.length).map fun i =>
    p.cols.map fun c => (c.cells.getD i none).getD 0

/-- `split_idx = int((1 - test_size) * len(scaled_data))`: Python `int`
truncation, the floor for the nonnegative products arising here. -/
def split_index (n : ℕ) (test_size : ℚ) : ℕ :=
  (⌊(1 - test_size) * (n : ℚ)⌋).toNat

/-- Column mean fitted by the external `StandardScaler` on the whole
cleaned matrix. -/
noncomputable def colMean (rows : List (List ℚ)) (j : ℕ) : ℝ :=
  (rows.map fun r => ((r.getD j 0 : ℚ) : ℝ)).sum / rows.length

/-- Column (population) variance fitted by the external `StandardScaler`. -/
noncomputable def colVar (rows : List (List ℚ)) (j : ℕ) : ℝ :=
  (rows.map fun r => (((r.getD j 0 : ℚ) : ℝ) - colMean rows j) ^ 2).sum / rows.length

/-- The per-column scale: the standard deviation, except that sklearn
replaces a zero variance by scale 1. -/
noncomputable def colScale (rows : List (List ℚ)) (j : ℕ) : ℝ :=
  if colVar rows j = 0 then 1 else Real.sqrt (colVar rows j)

/-- `StandardScaler().fit_transform(cleaned_df.values)`: standardize each
column with the mean and scale fitted on the entire cleaned matrix. -/
noncomputable def fit_transform (rows : List (List ℚ)) : List (List ℝ) :=
  rows.map fun r => (List.range r.length).map fun j =>
    (((r.getD j 0 : ℚ) : ℝ) - colMean rows j) / colScale rows j

/-- The error taxonomy named by the specification.  The source defines
and raises none of these: the code path of `prepare_data` below is the
`.ok` constructor throughout, faithful to the source; the `Except`
wrapper only makes the failure claims of the specification statable. -/
inductive DataError
  | emptyPanel
  | degenerateSplit
  | invalidConfig
  deriving DecidableEq

/-- What `prepare_data` returns: the two row partitions (wrapped
downstream into the external DataLoader batch sources), the fitted
scaler parameters, and the pre-cleaning column names. -/
structure PrepResult where
  featureNames : List String
  trainData : List (List ℝ)
  testData : List (List ℝ)
  scalerMean : List ℝ
  scalerScale : List ℝ

/-- `prepare_data(csv_path, test_size, batch_size)`, taking the panel
read from the csv as input.  The source validates nothing and never
raises: it captures the feature names, cleans with threshold 3/10,
scales, computes `split_idx = int((1 - test_size) * len(scaled_data))`
and slices `scaled_data[:split_idx]` / `scaled_data[split_idx:]`.
`batch_size` is only handed to the external DataLoader. -/
noncomputable def prepare_data (df : Panel) (test_size : ℚ) (batch_size : ℕ) :
    Except DataError PrepResult :=
  let feature_names := df.cols.map fun c => c.name
  let cleaned_df := clean_quarterly_data df (3/10)
  let rows := panelRows cleaned_df
  let scaled_data := fit_transform rows
  let split_idx := split_index scaled_data.length test_size
  Except.ok
    { featureNames := feature_names
      trainData := scaled_data.take split_idx
      testData := scaled_data.drop split_idx
      scalerMean := (List.range cleaned_df.cols.length).map fun j => colMean rows j
      scalerScale := (List.range cleaned_df.cols.length).map fun j => colScale rows j }

theorem fit_transform_length (rows : List (List ℚ)) :
    (fit_transform rows).length = rows.length := by
  simp [fit_transform]

/-- Claim C2 — For every input panel and testFraction in (0,1),
`prepare_data` succeeds and splits at `splitIndex = floor((1-f)*n)` where
`n` is the row count of the cleaned panel: the train partition is rows
`[0, splitIndex)` of the scaled array, the test partition rows
`[splitIndex, n)`, and the two concatenate back to the whole scaled
array — positionally disjoint, every train row before every test row. -/
theorem claim_C2 (df : Panel) (f : ℚ) (b : ℕ) (h0 : 0 < f) (h1 : f < 1) :
    ∃ r, prepare_data df f b = Except.ok r ∧
      r.trainData = (fit_transform (panelRows (clean_quarterly_data df (3/10)))).take
        (split_index (panelRows (clean_quarterly_data df (3/10))).length f) ∧
      r.testData = (fit_transform (panelRows (clean_quarterly_data df (3/10)))).drop
        (split_index (panelRows (clean_quarterly_data df (3/10))).length f) ∧
      r.trainData ++ r.testData =
        fit_transform (panelRows (clean_quarterly_data df (3/10))) ∧
      ((split_index (panelRows (clean_quarterly_data df (3/10))).length f : ℕ) : ℤ) =
        ⌊(1 - f) * ((panelRows (clean_quarterly_data df (3/10))).length : ℚ)⌋ := by
  refine ⟨_, rfl, ?_, ?_, ?_, ?_⟩
  · simp [fit_transform_length]
  · simp [fit_transform_length]
  · simp [fit_transform_length, List.take_append_drop]
  · have hnn : (0:ℚ) ≤ (1 - f) * ((panelRows (clean_quarterly_data df (3/10))).length : ℚ) := by
      have : (0:ℚ) ≤ 1 - f := by linarith
      positivity
    exact Int.toNat_of_nonneg (Int.le_floor.mpr (by simpa using hnn))

/-- A 100-row panel with one complete numeric column: cleaning keeps all
100 rows, so the split of the worked example in the specification applies. -/
def df100 : Panel :=
  ⟨(List.range 100).map Int.ofNat,
    [⟨"Real_GDP", true, (List.range 100).map fun i => some (i : ℚ)⟩]⟩

set_option maxRecDepth 100000 in
set_option maxHeartbeats 1000000 in
theorem claim_C2_witness :
    ((0 < (1/5 : ℚ)) ∧ ((1/5 : ℚ) < 1)) ∧
    (panelRows (clean_quarterly_data df100 (3/10))).length = 100 ∧
    split_index 100 (1/5) = 80 ∧
    (∃ r, prepare_data df100 (1/5) 32 = Except.ok r ∧
      r.trainData = (fit_transform (panelRows (clean_quarterly_data df100 (3/10)))).take
        (split_index (panelRows (clean_quarterly_data df100 (3/10))).length (1/5)) ∧
      r.testData = (fit_transform (panelRows (clean_quarterly_data df100 (3/10)))).drop
        (split_index (panelRows (clean_quarterly_data df100 (3/10))).length (1/5)) ∧
      r.trainData ++ r.testData =
        fit_transform (panelRows (clean_quarterly_data df100 (3/10))) ∧
      ((split_index (panelRows (clean_quarterly_data df100 (3/10))).length (1/5) : ℕ) : ℤ) =
        ⌊(1 - (1/5 : ℚ)) * ((panelRows (clean_quarterly_data df100 (3/10))).length : ℚ)⌋) :=
  ⟨⟨by with_unfolding_all decide, by with_unfolding_all decide⟩,
    by with_unfolding_all decide,
    by with_unfolding_all decide,
    claim_C2 df100 (1/5) 32 (by with_unfolding_all decide) (by with_unfolding_all decide)⟩

/-! ## Degenerate splits and empty panels (claims C5 and C8) -/

/-- A one-row panel with one complete numeric column: with testFraction
1/2 the computed split index is `int(0.5) = 0`, an empty train
partition. -/
def df1 : Panel := ⟨[0], [⟨"Real_GDP", true, [some 1]⟩]⟩

/-- Claim C5, counterexample — On a one-row panel with testFraction 1/2
(inside (0,1)) the computed splitIndex is 0, so the split leaves the
train partition empty; the claim demands a DegenerateSplitError, but the
call returns normally (`isOk`): the source defines no such error and
performs no validation. -/
theorem counterexample_C5 :
    ((0 < (1/2 : ℚ)) ∧ ((1/2 : ℚ) < 1)) ∧
    split_index
      (fit_transform (panelRows (clean_quarterly_data df1 (3/10)))).length (1/2) = 0 ∧
    (prepare_data df1 (1/2) 32).isOk = true := by
  refine ⟨⟨by with_unfolding_all decide, by with_unfolding_all decide⟩, ?_, rfl⟩
  rw [fit_transform_length]
  with_unfolding_all decide

/-- Claim C5, amended — `prepare_data` performs no validation of the
testFraction or of the computed split index and raises no
DegenerateSplitError: whenever the computed splitIndex is 0 (empty train
partition) it still returns normally, with an empty train partition. -/
theorem claim_C5_amended (df : Panel) (f : ℚ) (b : ℕ)
    (h : split_index
      (fit_transform (panelRows (clean_quarterly_data df (3/10)))).length f = 0) :
    ∃ r, prepare_data df f b = Except.ok r ∧ r.trainData = [] := by
  refine ⟨_, rfl, ?_⟩
  show List.take _ _ = []
  rw [h]
  rfl

theorem claim_C5_amended_witness :
    split_index
      (fit_transform (panelRows (clean_quarterly_data df1 (3/10)))).length (1/2) = 0 ∧
    (∃ r, prepare_data df1 (1/2) 32 = Except.ok r ∧ r.trainData = []) := by
  have h : split_index
      (fit_transform (panelRows (clean_quarterly_data df1 (3/10)))).length (1/2) = 0 := by
    rw [fit_transform_length]
    with_unfolding_all decide
  exact ⟨h, claim_C5_amended df1 (1/2) 32 h⟩

/-- A two-row panel whose only column is entirely missing: the
column-pruning step (missing fraction 1 > 3/10) removes every column. -/
def dfAllMissing : Panel := ⟨[0, 1], [⟨"Real_GDP", true, [none, none]⟩]⟩

theorem panelRows_of_cols_nil {p : Panel} (h : p.cols = []) :
    ∀ r ∈ panelRows p, r = [] := by
  intro r hr
  rcases List.mem_map.mp hr with ⟨i, -, rfl⟩
  simp [h]

/-- Claim C8, counterexample — Cleaning this nonempty panel removes every
column, yet the preparation call returns normally (`isOk`), so no
EmptyPanelError (indeed no error at all) is raised in place of the
silently empty table. -/
theorem counterexample_C8 :
    dfAllMissing.cols ≠ [] ∧
    (clean_quarterly_data dfAllMissing (3/10)).cols = [] ∧
    (clean_quarterly_data dfAllMissing (3/10)).index = [0, 1] ∧
    (prepare_data dfAllMissing (1/5) 32).isOk = true := by
  refine ⟨by with_unfolding_all decide, by with_unfolding_all decide,
    by with_unfolding_all decide, rfl⟩

/-- Claim C8, amended — When cleaning removes every column,
`clean_quarterly_data` silently returns the empty-column panel and
`prepare_data` still returns normally, its partitions made of empty
rows; the code defines no EmptyPanelError (in the live pipeline the
external scaling library is what eventually fails on the empty array,
with a generic error of its own, outside the code of this repository). -/
theorem claim_C8_amended (df : Panel) (f : ℚ) (b : ℕ)
    (h : (clean_quarterly_data df (3/10)).cols = []) :
    ∃ r, prepare_data df f b = Except.ok r ∧
      (∀ row ∈ r.trainData, row = []) ∧ ∀ row ∈ r.testData, row = [] := by
  have hrows : ∀ row ∈ fit_transform (panelRows (clean_quarterly_data df (3/10))),
      row = [] := by
    intro row hrow
    simp only [fit_transform, List.mem_map] at hrow
    obtain ⟨r₀, hr₀, rfl⟩ := hrow
    rw [panelRows_of_cols_nil h r₀ hr₀]
    rfl
  refine ⟨_, rfl, fun row hrow => hrows row (List.mem_of_mem_take hrow),
    fun row hrow => hrows row (List.mem_of_mem_drop hrow)⟩

theorem claim_C8_amended_witness :
    (clean_quarterly_data dfAllMissing (3/10)).cols = [] ∧
    (∃ r, prepare_data dfAllMissing (1/5) 32 = Except.ok r ∧
      (∀ row ∈ r.trainData, row = []) ∧ ∀ row ∈ r.testData, row = []) := by
  have h : (clean_quarterly_data dfAllMissing (3/10)).cols = [] := by
    with_unfolding_all decide
  exact ⟨h, claim_C8_amended dfAllMissing (1/5) 32 h⟩

/-! ## FRED collection (collect_data) -/

/-- One observable event of the fetch loop, for the rate-limit claims. -/
inductive Event
  | request (id : String)
  | added (name : String)
  | failed (name : String)
  | slept (d : ℚ)
  deriving DecidableEq

/-- pandas alignment: the value of an assigned series at one date of the
index of the frame. -/
def lookupDate (pts : List (ℤ × ℚ)) (d : ℤ) : Option ℚ :=
  (pts.find? fun p => p.1 == d).map fun p => p.2

/-- `df[series_name] = series` on a frame that already has columns:
pandas aligns the series to the existing index (values at dates outside
the index are discarded, dates missing from the series become NaN); a
column of the same name is replaced in place, a fresh name is appended. -/
def upsertCol (cols : List Column) (name : String) (cells : List (Option ℚ)) :
    List Column :=
  if cols.any fun c => c.name == name then
    cols.map fun c => if c.name == name then { c with cells := cells } else c
  else
    cols ++ [⟨name, true, cells⟩]

/-- `df[series_name] = series`: on the still-empty `pd.DataFrame()` the
assignment installs the dates of the series as the frame index; on a
nonempty frame it aligns to the existing index. -/
def dfAssign (df : Panel) (name : String) (pts : List (ℤ × ℚ)) : Panel :=
  if df.cols.isEmpty then
    { index := pts.map fun p => p.1
      cols := [⟨name, true, pts.map fun p => some p.2⟩] }
  else
    { index := df.index
      cols := upsertCol df.cols name (df.index.map fun d => lookupDate pts d) }

/-- The catalog flattened in iteration order: categories in declaration
order, then series within each category in declaration order — exactly
the order of the two nested loops of the source. -/
def flatSeries (catalog : List (String × List (String × String))) :
    List (String × String) :=
  catalog.flatMap fun cat => cat.2

/-- One iteration of the fetch loop on the accumulator frame: a
successful `fred.get_series` assigns the column under the display name,
a caught failure leaves the frame untouched. -/
def fetchStep (fetch : String → Except String (List (ℤ × ℚ)))
    (df : Panel) (s : String × String) : Panel :=
  match fetch s.1 with
  | Except.ok pts => dfAssign df s.2 pts
  | Except.error _ => df

/-- The frame accumulated by the whole fetch loop, started from
`pd.DataFrame()`. -/
def collectPanel (catalog : List (String × List (String × String)))
    (fetch : String → Except String (List (ℤ × ℚ))) : Panel :=
  (flatSeries catalog).foldl (fetchStep fetch) ⟨[], []⟩

/-- The events of one catalog entry: the request, then on success the
assignment followed by `time.sleep(0.2)`; on failure only the logged
failure — in the source the sleep sits inside the `try` block after the
assignment, so a failing request skips it. -/
def seriesEvents (fetch : String → Except String (List (ℤ × ℚ)))
    (s : String × String) : List Event :=
  match fetch s.1 with
  | Except.ok _ => [Event.request s.1, Event.added s.2, Event.slept (1/5)]
  | Except.error _ => [Event.request s.1, Event.failed s.2]

/-- The event trace of the whole fetch loop. -/
def collectTrace (catalog : List (String × List (String × String)))
    (fetch : String → Except String (List (ℤ × ℚ))) : List Event :=
  (flatSeries catalog).flatMap (seriesEvents fetch)

/-- `collect_data(series_map)`: the assembled frame together with the
trace of requests, assignments, failures and sleeps. -/
def collect_data (catalog : List (String × List (String × String)))
    (fetch : String → Except String (List (ℤ × ℚ))) : Panel × List Event :=
  (collectPanel catalog fetch, collectTrace catalog fetch)

/-- The discipline the specification claims: a pause of at least 200ms
(1/5 s) between any two consecutive requests.  The flag records whether a
qualifying sleep has occurred since the last request (initially true);
every request demands it. -/
def pausedBetweenRequests : Bool → List Event → Bool
  | _, [] => true
  | ok, Event.request _ :: rest => ok && pausedBetweenRequests false rest
  | ok, Event.slept d :: rest =>
      pausedBetweenRequests (ok || decide ((1/5 : ℚ) ≤ d)) rest
  | ok, _ :: rest => pausedBetweenRequests ok rest

/-- The discipline the code actually implements: every successful
assignment is followed by a qualifying sleep before the next request.
The flag records that no un-slept success is pending. -/
def pausedAfterSuccess : Bool → List Event → Bool
  | _, [] => true
  | ok, Event.request _ :: rest => ok && pausedAfterSuccess ok rest
  | _, Event.added _ :: rest => pausedAfterSuccess false rest
  | ok, Event.slept d :: rest =>
      pausedAfterSuccess (ok || decide ((1/5 : ℚ) ≤ d)) rest
  | ok, Event.failed _ :: rest => pausedAfterSuccess ok rest

/-- A two-entry catalog whose first series fails and second succeeds. -/
def catalogTwo : List (String × List (String × String)) :=
  [("Labor Market", [("UNRATE", "Unemployment_Rate"), ("PAYEMS", "Nonfarm_Payrolls")])]

/-- A provider behaviour that rejects the first of the two series. -/
def fetchFailFirst : String → Except String (List (ℤ × ℚ)) := fun id =>
  if id == "UNRATE" then Except.error "Bad Request" else Except.ok [(0, 1), (1, 2)]

/-- Claim C4, counterexample — With a catalog of two series whose first
request fails, the trace goes `request, failed, request, ...` with no
sleep between the two requests: the claim that the caller pauses after
every request, success or failure, is false — the `time.sleep(0.2)` sits
after the assignment inside the `try` block and is skipped on failure. -/
theorem counterexample_C4 :
    pausedBetweenRequests true (collectTrace catalogTwo fetchFailFirst) = false := by
  with_unfolding_all decide

/-- Claim C4, amended — After every successful request the caller sleeps
200ms before the next request is issued; after a failed request it
proceeds to the next request immediately. -/
theorem claim_C4_amended (catalog : List (String × List (String × String)))
    (fetch : String → Except String (List (ℤ × ℚ))) :
    pausedAfterSuccess true (collectTrace catalog fetch) = true := by
  unfold collectTrace
  induction flatSeries catalog with
  | nil => rfl
  | cons s l ih =>
    rw [List.flatMap_cons]
    cases hf : fetch s.1 with
    | ok pts =>
      have hse : seriesEvents fetch s =
          [Event.request s.1, Event.added s.2, Event.slept (1/5)] := by
        unfold seriesEvents
        rw [hf]
      have hd : decide ((1/5 : ℚ) ≤ (1/5 : ℚ)) = true := decide_eq_true (le_refl _)
      rw [hse]
      simp [pausedAfterSuccess, hd, ih]
    | error e =>
      have hse : seriesEvents fetch s = [Event.request s.1, Event.failed s.2] := by
        unfold seriesEvents
        rw [hf]
      rw [hse]
      simp [pausedAfterSuccess, ih]

/-! ## Failure isolation and column assembly (claims C6 and C10) -/

theorem upsertCol_fresh {cols : List Column} {name : String}
    (h : ∀ c ∈ cols, c.name ≠ name) (cells : List (Option ℚ)) :
    upsertCol cols name cells = cols ++ [⟨name, true, cells⟩] := by
  have hany : (cols.any fun c => c.name == name) = false := by
    rw [List.any_eq_false]
    intro c hc
    simpa using h c hc
  simp [upsertCol, hany]

theorem dfAssign_names (df : Panel) (name : String) (pts : List (ℤ × ℚ))
    (h : ∀ c ∈ df.cols, c.name ≠ name) :
    (dfAssign df name pts).cols.map (fun c => c.name) =
      df.cols.map (fun c => c.name) ++ [name] := by
  cases hemp : df.cols.isEmpty with
  | true =>
    have hnil : df.cols = [] := by simpa using hemp
    simp [dfAssign, hemp, hnil]
  | false =>
    simp only [dfAssign, hemp, Bool.false_eq_true, if_false]
    rw [upsertCol_fresh h]
    simp

theorem collect_fold_names (fetch : String → Except String (List (ℤ × ℚ))) :
    ∀ (l : List (String × String)) (df : Panel),
      ((l.map fun s => s.2).Nodup) →
      (∀ s ∈ l, ∀ c ∈ df.cols, c.name ≠ s.2) →
      ((l.foldl (fetchStep fetch) df).cols.map fun c => c.name) =
        (df.cols.map fun c => c.name) ++
          ((l.filter fun s => (fetch s.1).isOk).map fun s => s.2) := by
  intro l
  induction l with
  | nil => intro df _ _; simp
  | cons s l ih =>
    intro df hnd hfresh
    have hnd₂ : ((l.map fun s => s.2).Nodup) := by
      rw [List.map_cons] at hnd
      exact hnd.of_cons
    rw [List.foldl_cons]
    cases hf : fetch s.1 with
    | error e =>
      have hstep : fetchStep fetch df s = df := by unfold fetchStep; rw [hf]
      have hfilter : ((s :: l).filter fun s => (fetch s.1).isOk) =
          l.filter fun s => (fetch s.1).isOk := by
        rw [List.filter_cons]
        simp [hf, Except.isOk, Except.toBool]
      rw [hstep, hfilter]
      exact ih df hnd₂ (fun s₂ hs₂ => hfresh s₂ (List.mem_cons_of_mem _ hs₂))
    | ok pts =>
      have hstep : fetchStep fetch df s = dfAssign df s.2 pts := by
        unfold fetchStep; rw [hf]
      have hfresh₀ : ∀ c ∈ df.cols, c.name ≠ s.2 :=
        fun c hc => hfresh s (by simp) c hc
      have hassign := dfAssign_names df s.2 pts hfresh₀
      have hhead : s.2 ∉ l.map fun s => s.2 := by
        rw [List.map_cons] at hnd
        exact hnd.not_mem
      have hfreshn : ∀ s₂ ∈ l, ∀ c ∈ (dfAssign df s.2 pts).cols, c.name ≠ s₂.2 := by
        intro s₂ hs₂ c hc
        have hmem : c.name ∈ (dfAssign df s.2 pts).cols.map fun c => c.name :=
          List.mem_map_of_mem _ hc
        rw [hassign] at hmem
        rcases List.mem_append.mp hmem with hmem | hmem
        · obtain ⟨c₀, hc₀, hce⟩ := List.mem_map.mp hmem
          rw [← hce]
          exact hfresh s₂ (List.mem_cons_of_mem _ hs₂) c₀ hc₀
        · have hcn : c.name = s.2 := by simpa using hmem
          rw [hcn]
          intro hEq
          exact hhead (by rw [hEq]; exact List.mem_map_of_mem _ hs₂)
      have htail := ih (dfAssign df s.2 pts) hnd₂ hfreshn
      have hfilter : ((s :: l).filter fun s => (fetch s.1).isOk) =
          s :: (l.filter fun s => (fetch s.1).isOk) := by
        rw [List.filter_cons]
        simp [hf, Except.isOk, Except.toBool]
      rw [hstep, htail, hassign, hfilter]
      simp

/-- Claim C6 — For every catalog (with its declared display names pairwise
distinct, as the catalog guarantees) and every pattern of per-series
provider outcomes, the failure of one series never disturbs the others:
the columns of the assembled frame are exactly the successfully fetched series, in
catalog order, each under its declared display name. -/
theorem claim_C6 (catalog : List (String × List (String × String)))
    (fetch : String → Except String (List (ℤ × ℚ)))
    (hnodup : ((flatSeries catalog).map fun s => s.2).Nodup) :
    ((collectPanel catalog fetch).cols.map fun c => c.name) =
      (((flatSeries catalog).filter fun s => (fetch s.1).isOk).map fun s => s.2) := by
  unfold collectPanel
  have h := collect_fold_names fetch (flatSeries catalog) ⟨[], []⟩ hnodup
    (by intro s hs c hc; simp at hc)
  simpa using h

theorem claim_C6_witness :
    (((flatSeries catalogTwo).map fun s => s.2).Nodup) ∧
    ((collectPanel catalogTwo fetchFailFirst).cols.map fun c => c.name) =
      (((flatSeries catalogTwo).filter fun s => (fetchFailFirst s.1).isOk).map
        fun s => s.2) :=
  ⟨by with_unfolding_all decide,
    claim_C6 catalogTwo fetchFailFirst (by with_unfolding_all decide)⟩

/-- The first entry of the catalog, in iteration order, whose request
succeeds, together with its data. -/
def firstSuccess : List (String × String) →
    (String → Except String (List (ℤ × ℚ))) →
    Option ((String × String) × List (ℤ × ℚ))
  | [], _ => none
  | s :: l, fetch =>
    match fetch s.1 with
    | Except.ok pts => some (s, pts)
    | Except.error _ => firstSuccess l fetch

theorem upsertCol_ne_nil (cols : List Column) (name : String)
    (cells : List (Option ℚ)) (h : cols ≠ []) :
    upsertCol cols name cells ≠ [] := by
  unfold upsertCol
  by_cases hany : (cols.any fun c => c.name == name) = true
  · rw [if_pos hany]
    simpa using h
  · rw [if_neg hany]
    simp

theorem upsertCol_length {cols : List Column} {name : String}
    {cells : List (Option ℚ)} {n : ℕ}
    (hlen : ∀ c ∈ cols, c.cells.length = n) (hcells : cells.length = n) :
    ∀ c ∈ upsertCol cols name cells, c.cells.length = n := by
  intro c hc
  unfold upsertCol at hc
  by_cases hany : (cols.any fun c => c.name == name) = true
  · rw [if_pos hany] at hc
    obtain ⟨c₀, hc₀, rfl⟩ := List.mem_map.mp hc
    by_cases hn : (c₀.name == name) = true
    · simp [hn, hcells]
    · simp only [hn, Bool.false_eq_true, if_false]
      exact hlen c₀ hc₀
  · rw [if_neg hany] at hc
    rcases List.mem_append.mp hc with hc | hc
    · exact hlen c hc
    · have : c = ⟨name, true, cells⟩ := by simpa using hc
      rw [this]
      exact hcells

theorem dfAssign_nonempty (df : Panel) (name : String) (pts : List (ℤ × ℚ))
    (hne : df.cols ≠ []) :
    (dfAssign df name pts).index = df.index ∧
    (dfAssign df name pts).cols ≠ [] ∧
    ((∀ c ∈ df.cols, c.cells.length = df.index.length) →
      ∀ c ∈ (dfAssign df name pts).cols, c.cells.length = df.index.length) := by
  have hemp : df.cols.isEmpty = false := by
    cases hh : df.cols with
    | nil => exact absurd hh hne
    | cons a l => rfl
  refine ⟨by simp [dfAssign, hemp], ?_, ?_⟩
  · simp only [dfAssign, hemp, Bool.false_eq_true, if_false]
    exact upsertCol_ne_nil _ _ _ hne
  · intro hlen
    simp only [dfAssign, hemp, Bool.false_eq_true, if_false]
    exact upsertCol_length hlen (by simp)

theorem collect_fold_keeps (fetch : String → Except String (List (ℤ × ℚ))) :
    ∀ (l : List (String × String)) (df : Panel),
      df.cols ≠ [] →
      (∀ c ∈ df.cols, c.cells.length = df.index.length) →
      (l.foldl (fetchStep fetch) df).index = df.index ∧
      ∀ c ∈ (l.foldl (fetchStep fetch) df).cols,
        c.cells.length = df.index.length := by
  intro l
  induction l with
  | nil => intro df _ hlen; exact ⟨rfl, hlen⟩
  | cons s l ih =>
    intro df hne hlen
    rw [List.foldl_cons]
    cases hf : fetch s.1 with
    | error e =>
      have hstep : fetchStep fetch df s = df := by unfold fetchStep; rw [hf]
      rw [hstep]
      exact ih df hne hlen
    | ok pts =>
      have hstep : fetchStep fetch df s = dfAssign df s.2 pts := by
        unfold fetchStep; rw [hf]
      rw [hstep]
      obtain ⟨hidx, hne₂, hlen₂⟩ := dfAssign_nonempty df s.2 pts hne
      obtain ⟨hi, hl⟩ := ih (dfAssign df s.2 pts) hne₂ (by
        intro c hc
        rw [hidx]
        exact hlen₂ hlen c hc)
      refine ⟨by rw [hi, hidx], ?_⟩
      intro c hc
      rw [← hidx]
      exact hl c hc

theorem collect_first_index (fetch : String → Except String (List (ℤ × ℚ))) :
    ∀ (l : List (String × String)) (s : String × String) (pts : List (ℤ × ℚ)),
      firstSuccess l fetch = some (s, pts) →
      (l.foldl (fetchStep fetch) ⟨[], []⟩).index = (pts.map fun p => p.1) ∧
      ∀ c ∈ (l.foldl (fetchStep fetch) ⟨[], []⟩).cols,
        c.cells.length = pts.length := by
  intro l
  induction l with
  | nil => intro s pts h; simp [firstSuccess] at h
  | cons s₀ l ih =>
    intro s pts h
    rw [List.foldl_cons]
    cases hf : fetch s₀.1 with
    | error e =>
      have hfs : firstSuccess (s₀ :: l) fetch = firstSuccess l fetch := by
        show (match fetch s₀.1 with
          | Except.ok pts => some (s₀, pts)
          | Except.error _ => firstSuccess l fetch) = firstSuccess l fetch
        rw [hf]
      have hstep : fetchStep fetch ⟨[], []⟩ s₀ = (⟨[], []⟩ : Panel) := by
        unfold fetchStep; rw [hf]
      rw [hstep]
      exact ih s pts (by rw [← hfs]; exact h)
    | ok pts₀ =>
      have hfs : firstSuccess (s₀ :: l) fetch = some (s₀, pts₀) := by
        unfold firstSuccess; rw [hf]
      rw [h] at hfs
      have hpts : pts = pts₀ := by
        have := Option.some.inj hfs
        rw [Prod.ext_iff] at this
        exact this.2
      subst hpts
      have hstep : fetchStep fetch ⟨[], []⟩ s₀ = dfAssign ⟨[], []⟩ s₀.2 pts := by
        unfold fetchStep; rw [hf]
      have hinit : dfAssign ⟨[], []⟩ s₀.2 pts =
          ⟨pts.map fun p => p.1, [⟨s₀.2, true, pts.map fun p => some p.2⟩]⟩ := by
        simp [dfAssign]
      rw [hstep, hinit]
      obtain ⟨hi, hl⟩ := collect_fold_keeps fetch l
        ⟨pts.map fun p => p.1, [⟨s₀.2, true, pts.map fun p => some p.2⟩]⟩
        (by simp)
        (by
          intro c hc
          have : c = ⟨s₀.2, true, pts.map fun p => some p.2⟩ := by simpa using hc
          rw [this]
          simp)
      refine ⟨by simpa using hi, ?_⟩
      intro c hc
      have := hl c hc
      simpa using this

/-- Claim C10 — Whenever at least one series is fetched successfully, the
date index of the assembled frame is the date list of the first successful
series, and every column is aligned to that index (it has exactly as
many cells as that first series has dates): values of later series at
other dates are discarded and their extra dates are never added. -/
theorem claim_C10 (catalog : List (String × List (String × String)))
    (fetch : String → Except String (List (ℤ × ℚ)))
    (s : String × String) (pts : List (ℤ × ℚ))
    (h : firstSuccess (flatSeries catalog) fetch = some (s, pts)) :
    (collectPanel catalog fetch).index = (pts.map fun p => p.1) ∧
    ∀ c ∈ (collectPanel catalog fetch).cols, c.cells.length = pts.length :=
  collect_first_index fetch (flatSeries catalog) s pts h

theorem claim_C10_witness :
    firstSuccess (flatSeries catalogTwo) fetchFailFirst =
      some (("PAYEMS", "Nonfarm_Payrolls"), [(0, 1), (1, 2)]) ∧
    ((collectPanel catalogTwo fetchFailFirst).index =
      (([(0, 1), (1, 2)] : List (ℤ × ℚ)).map fun p => p.1) ∧
    ∀ c ∈ (collectPanel catalogTwo fetchFailFirst).cols,
      c.cells.length = ([(0, 1), (1, 2)] : List (ℤ × ℚ)).length) :=
  ⟨by with_unfolding_all decide,
    claim_C10 catalogTwo fetchFailFirst ("PAYEMS", "Nonfarm_Payrolls")
      [(0, 1), (1, 2)] (by with_unfolding_all decide)⟩
